import Mathlib

/-!
Verification of the lagen.nu legal-corpus pipeline: the document model built by
the spider (`la-w-spider.py`, `LagenNuSpider.parse_law`), the corpus map the
spider accumulates (`parse_category` / `parse_law`), the link classification in
`LagenNuSpider.parse`, and the tree flattener `split_documents` / `process_law`
in `main.py`.  Python dictionaries keyed by strings are embedded as ordered
association lists (matching dict insertion-order semantics), optional values as
`Option`, and fallible dictionary/list indexing as `Option`-returning functions.
-/

namespace LagenNu

/-! ### Definitions -/

/-- Python `str` applied to a value that is either a string or `None`:
`None` renders as `"None"`, a string renders as itself.  This is how the
f-strings `f"Chapter {chapter['number']}"` and `f"Section {section['number']}"`
in `process_law` render a possibly-`None` number. -/
def pyStr : Option String → String
  | none => "None"
  | some s => s

/-- Little-endian decimal digits of the second argument; the first argument is
structural fuel (any fuel at least the number itself yields all digits).  Using
explicit fuel keeps the definition structurally recursive so that it reduces
inside the kernel. -/
def natDigitsRev : Nat → Nat → List Nat
  | 0, _ => []
  | _ + 1, 0 => []
  | fuel + 1, n + 1 => ((n + 1) % 10) :: natDigitsRev fuel ((n + 1) / 10)

/-- Decimal rendering of a natural number, as Python `str(i)` renders the
1-based enumeration indices in `f"Paragraph {i}"` and `f"Point {j}"`. -/
def natRepr (n : Nat) : String :=
  if n = 0 then "0" else ⟨((natDigitsRev n n).map Nat.digitChar).reverse⟩

/-- Python `" > ".join(parts)`, used by `process_law` to render breadcrumb
paths. -/
def sjoin : List String → String
  | [] => ""
  | [a] => a
  | a :: b :: t => a ++ " > " ++ sjoin (b :: t)

/-! ## The document model produced by `LagenNuSpider.parse_law`

`parse_law` always emits every key of each record, so the builder-shaped model
has no absent keys: a selector that matched nothing contributes a `None` value
(`Option.none` here), and `getall()` selectors contribute (possibly empty)
lists of strings.  The builder wraps the case-law and citation counts as
single-element lists `[{"count": n}]`; the model records the count itself and
the raw-dictionary model below keeps the list shape. -/

/-- A comment of a section: `{"text": comment, "type": "explanation"}` built
from `section.css('.comment::text').getall()`, so `text` is always a string. -/
structure Comment where
  text : String
  type : String
deriving DecidableEq

/-- An amendment record `{"law": amendment}` built from
`section.css('.amendment::text').getall()`. -/
structure Amendment where
  law : String
deriving DecidableEq

/-- A paragraph: `{"text": paragraph.css('::text').get(), "points":
paragraph.css('li::text').getall()}`; `text` may be `None`, points are
strings. -/
structure Paragraph where
  text : Option String
  points : List String
deriving DecidableEq

/-- A section as built by `parse_law`: number and text from `.get()` (may be
`None`), comments/amendments from `.getall()`, and the two aggregate counts
(the builder stores them as `[{"count": n}]`; the count is recorded here). -/
structure Section where
  number : Option String
  text : Option String
  comments : List Comment
  amendments : List Amendment
  case_law_count : Nat
  citations_count : Nat
  paragraphs : List Paragraph
deriving DecidableEq

/-- The `{"sfs": ...}` record under `metadata.last_amended`. -/
structure LastAmended where
  sfs : Option String
deriving DecidableEq

/-- The `metadata` record of a law. -/
structure LawMetadata where
  department : Option String
  issued_date : Option String
  last_amended : LastAmended
deriving DecidableEq

/-- A chapter: number/title from `.get()` (may be `None`) and its sections. -/
structure Chapter where
  number : Option String
  title : Option String
  sections : List Section
deriving DecidableEq

/-- A law as built by `parse_law`: the id is the final URL segment (always a
string), the remaining single-value fields may be `None`. -/
structure Law where
  id : String
  title : Option String
  short_title : Option String
  metadata : LawMetadata
  chapters : List Chapter
deriving DecidableEq

/-! ## Chunks produced by `split_documents` / `process_law` -/

/-- The `law_info` snapshot stored in every chunk's metadata (`law_metadata`
in `process_law`); every field comes from a `.get()` chain and may be
`None`. -/
structure LawInfo where
  id : Option String
  title : Option String
  short_title : Option String
  department : Option String
  issued_date : Option String
  last_amended : Option String
deriving DecidableEq

/-- The kind-specific metadata of a chunk.  Section chunks carry chapter
title, amendments and both counts; comment chunks carry the comment type;
paragraph and point chunks carry only the section number. -/
inductive ChunkMeta where
  | sectionMeta (chapter_title : Option String) (section_number : Option String)
      (amendments : List String) (case_law_count : Nat) (citations_count : Nat)
  | commentMeta (comment_type : Option String) (section_number : Option String)
  | paragraphMeta (section_number : Option String)
  | pointMeta (section_number : Option String)
deriving DecidableEq

/-- One chunk of `split_documents` output: `content` is the Python value put
in the `"content"` field (a string or `None`), `path` the joined breadcrumb,
plus the metadata. -/
structure Chunk where
  content : Option String
  path : String
  law_info : LawInfo
  meta : ChunkMeta
deriving DecidableEq

/-- The `law_metadata` dictionary computed once at the top of `process_law`.
On builder-shaped laws `law.get("id")` is the (always present) id string and
the nested `.get` chains reach the corresponding metadata fields. -/
def lawInfoOf (law : Law) : LawInfo :=
  { id := some law.id
    title := law.title
    short_title := law.short_title
    department := law.metadata.department
    issued_date := law.metadata.issued_date
    last_amended := law.metadata.last_amended.sfs }

/-- The breadcrumb component `f"Chapter {chapter['number']}"`. -/
def chapterComp (ch : Chapter) : String := "Chapter " ++ pyStr ch.number

/-- The breadcrumb component `f"Section {section['number']}"`. -/
def sectionComp (s : Section) : String := "Section " ++ pyStr s.number

/-- The breadcrumb component `f"Paragraph {i}"` (1-indexed). -/
def paraComp (i : Nat) : String := "Paragraph " ++ natRepr i

/-- The breadcrumb component `f"Point {j}"` (1-indexed). -/
def pointComp (j : Nat) : String := "Point " ++ natRepr j

/-- The section chunk built at the top of the section loop of `process_law`.
`section.get("text", "")` returns the stored text value (possibly `None`,
since `parse_law` always stores the key); the amendment list maps
`a.get("law")` over the amendment records. -/
def mkSectionChunk (li : LawInfo) (ch : Chapter) (sectionPath : List String)
    (s : Section) : Chunk :=
  { content := s.text
    path := sjoin sectionPath
    law_info := li
    meta := .sectionMeta ch.title s.number (s.amendments.map Amendment.law)
      s.case_law_count s.citations_count }

/-- A comment chunk: content `comment.get("text", "")` (always a string on
builder output), path extended with `"Comment"`. -/
def mkCommentChunk (li : LawInfo) (sectionPath : List String) (s : Section)
    (c : Comment) : Chunk :=
  { content := some c.text
    path := sjoin (sectionPath ++ ["Comment"])
    law_info := li
    meta := .commentMeta (some c.type) s.number }

/-- A paragraph chunk: content `paragraph.get("text", "")` (possibly `None`),
path extended with `f"Paragraph {i}"`. -/
def mkParaChunk (li : LawInfo) (sectionPath : List String) (s : Section)
    (i : Nat) (p : Paragraph) : Chunk :=
  { content := p.text
    path := sjoin (sectionPath ++ [paraComp i])
    law_info := li
    meta := .paragraphMeta s.number }

/-- A point chunk: content is the point string itself, path extended with
`f"Paragraph {i}" , f"Point {j}"`. -/
def mkPointChunk (li : LawInfo) (sectionPath : List String) (s : Section)
    (i j : Nat) (pt : String) : Chunk :=
  { content := some pt
    path := sjoin (sectionPath ++ [paraComp i, pointComp j])
    law_info := li
    meta := .pointMeta s.number }

/-- The body of `process_law(law, path)` from `main.py`: the chunks appended to
the accumulator for one law, produced by the nested loops over chapters,
sections, comments, enumerated paragraphs and enumerated points, in exactly the
source's append order. -/
def processLaw (path : List String) (law : Law) : List Chunk :=
  let law_info := lawInfoOf law
  law.chapters.foldl
    (fun chunks chapter =>
      let chapterPath := path ++ [chapterComp chapter]
      chapter.sections.foldl
        (fun chunks s =>
          let sectionPath := chapterPath ++ [sectionComp s]
          let chunks := chunks ++ [mkSectionChunk law_info chapter sectionPath s]
          let chunks := s.comments.foldl
            (fun chunks c => chunks ++ [mkCommentChunk law_info sectionPath s c]) chunks
          (List.enumFrom 1 s.paragraphs).foldl
            (fun chunks ip =>
              let chunks := chunks ++ [mkParaChunk law_info sectionPath s ip.1 ip.2]
              (List.enumFrom 1 ip.2.points).foldl
                (fun chunks jp =>
                  chunks ++ [mkPointChunk law_info sectionPath s ip.1 jp.1 jp.2])
                chunks)
            chunks)
        chunks)
    []

/-- The `"lagar"` map of the corpus: an ordered association list from category
name to an ordered association list from law id to `Law`, mirroring the nested
Python dictionaries in `self.data["lagen"]["lagar"]` (dict iteration follows
insertion order). -/
abbrev Corpus := List (String × List (String × Law))

/-- `split_documents(legal_data)` from `main.py`, applied to the `"lagar"` map:
iterates categories and laws in dictionary order and lets `process_law` append
each law's chunks to the shared accumulator (the top-level
`legal_data.get("lagen", {}).get("lagar", {})` unwrapping, which yields this
map or an empty one, is elided). -/
def splitDocuments (lagar : Corpus) : List Chunk :=
  lagar.foldl
    (fun chunks cat =>
      cat.2.foldl
        (fun chunks entry => chunks ++ processLaw [cat.1, entry.1] entry.2)
        chunks)
    []

/-! ## Structural characterisation of the flattener

The nested `foldl`s of `processLaw` are equal to a nested `flatMap`, which
exhibits the emission order: per section, the section chunk, then the comment
chunks, then per paragraph the paragraph chunk followed by its point chunks. -/

/-- The chunks `process_law` emits for one section, in emission order. -/
def sectionChunks (li : LawInfo) (chapterPath : List String) (ch : Chapter)
    (s : Section) : List Chunk :=
  let sectionPath := chapterPath ++ [sectionComp s]
  [mkSectionChunk li ch sectionPath s] ++
    s.comments.flatMap (fun c => [mkCommentChunk li sectionPath s c]) ++
    (List.enumFrom 1 s.paragraphs).flatMap
      (fun ip =>
        [mkParaChunk li sectionPath s ip.1 ip.2] ++
          (List.enumFrom 1 ip.2.points).flatMap
            (fun jp => [mkPointChunk li sectionPath s ip.1 jp.1 jp.2]))

/-- The flatMap form of `processLaw`. -/
def processLawStruct (path : List String) (law : Law) : List Chunk :=
  let li := lawInfoOf law
  law.chapters.flatMap
    (fun ch => ch.sections.flatMap (sectionChunks li (path ++ [chapterComp ch]) ch))

/-! ## The raw-dictionary model of the flattener's input

`process_law` in fact receives JSON dictionaries.  Most fields are read with
`.get(key, default)`, which never raises, but `chapter['number']` and
`section['number']` are plain subscripts (a `KeyError` when the key is
absent), and `section.get("case_law", [{}])[0]` / `section.get("citations",
[{}])[0]` index the stored list (an `IndexError` when a stored list is empty).
The raw model makes key absence explicit where it changes behaviour:
`Option (Option ...)` fields distinguish an absent key (outer `none`) from a
key stored with JSON `null` (inner `none`).  Failure is modelled by returning
`none` from the flattener; type confusion (e.g. `null` stored where a list is
expected) is outside the model. -/

/-- A raw comment dictionary: `comment.get("text", "")` distinguishes an
absent key (default `""`) from a stored `null`; `comment.get("type")` does
not. -/
structure RawComment where
  textKey : Option (Option String)
  typeKey : Option String
deriving DecidableEq

/-- A raw amendment dictionary, read with `a.get("law")`. -/
structure RawAmendment where
  lawKey : Option String
deriving DecidableEq

/-- A raw `{"count": n}` entry; `none` means the `"count"` key is absent, so
`.get("count", 0)` yields 0. -/
structure RawCountEntry where
  count : Option Nat
deriving DecidableEq

/-- A raw paragraph dictionary. -/
structure RawParagraph where
  textKey : Option (Option String)
  points : List String
deriving DecidableEq

/-- A raw section dictionary.  `numberKey = none` means the `"number"` key is
absent, which makes `section['number']` raise; `case_law`/`citations` record
the stored list when the key is present (`none` = absent, yielding the default
`[{}]`). -/
structure RawSection where
  numberKey : Option (Option String)
  textKey : Option (Option String)
  comments : List RawComment
  amendments : List RawAmendment
  case_law : Option (List RawCountEntry)
  citations : Option (List RawCountEntry)
  paragraphs : List RawParagraph
deriving DecidableEq

/-- A raw chapter dictionary; `numberKey = none` makes `chapter['number']`
raise. -/
structure RawChapter where
  numberKey : Option (Option String)
  titleKey : Option String
  sections : List RawSection
deriving DecidableEq

/-- A raw `last_amended` dictionary. -/
structure RawLastAmended where
  sfs : Option String
deriving DecidableEq

/-- A raw `metadata` dictionary; `last_amended = none` means the key is
absent, so `.get("last_amended", {})` yields an empty dictionary. -/
structure RawMetadata where
  department : Option String
  issued_date : Option String
  last_amended : Option RawLastAmended
deriving DecidableEq

/-- A raw law dictionary; `metadata = none` means the `"metadata"` key is
absent, so `law.get("metadata", {})` yields an empty dictionary. -/
structure RawLaw where
  id : Option String
  title : Option String
  short_title : Option String
  metadata : Option RawMetadata
  chapters : List RawChapter
deriving DecidableEq

/-- The metadata of a raw chunk; amendments may contain `None` entries
(`a.get("law")`). -/
inductive RawChunkMeta where
  | sectionMeta (chapter_title : Option String) (section_number : Option String)
      (amendments : List (Option String)) (case_law_count : Nat) (citations_count : Nat)
  | commentMeta (comment_type : Option String) (section_number : Option String)
  | paragraphMeta (section_number : Option String)
  | pointMeta (section_number : Option String)
deriving DecidableEq

/-- A chunk of the raw flattener. -/
structure RawChunk where
  content : Option String
  path : String
  law_info : LawInfo
  meta : RawChunkMeta
deriving DecidableEq

/-- The `law_metadata` dictionary of `process_law` over a raw law: every field
is a `.get` chain with dictionary defaults. -/
def rawLawInfo (law : RawLaw) : LawInfo :=
  { id := law.id
    title := law.title
    short_title := law.short_title
    department := law.metadata.bind RawMetadata.department
    issued_date := law.metadata.bind RawMetadata.issued_date
    last_amended := (law.metadata.bind RawMetadata.last_amended).bind RawLastAmended.sfs }

/-- `section.get("case_law", [{}])[0].get("count", 0)`: an absent key defaults
to `[{}]` (count 0); a stored empty list makes the `[0]` subscript raise
(`none` here); otherwise the first entry's count (default 0). -/
def rawCount : Option (List RawCountEntry) → Option Nat
  | none => some 0
  | some [] => none
  | some (e :: _) => some (e.count.getD 0)

/-- The Python value of `d.get(key, "")` for a `textKey` field: an absent key
yields `""`, a stored value (string or `null`) yields itself. -/
def getTextD : Option (Option String) → Option String
  | none => some ""
  | some v => v

/-- Appends the lists an `Option`-valued emitter produces for each element,
failing when any element fails — the raw counterpart of a Python loop that
appends chunks and may raise. -/
def optFlat {α β : Type} (f : α → Option (List β)) : List α → Option (List β)
  | [] => some []
  | x :: xs =>
    match f x, optFlat f xs with
    | some cs, some rest => some (cs ++ rest)
    | _, _ => none

/-- The chunks of one raw section, or `none` when `section['number']` or one
of the count subscripts raises. -/
def flattenRawSection (li : LawInfo) (chapterTitle : Option String)
    (chapterPath : List String) (s : RawSection) : Option (List RawChunk) :=
  match s.numberKey, rawCount s.case_law, rawCount s.citations with
  | some num, some clc, some cic =>
    let sectionPath := chapterPath ++ ["Section " ++ pyStr num]
    some
      ([{ content := getTextD s.textKey
          path := sjoin sectionPath
          law_info := li
          meta := .sectionMeta chapterTitle num
            (s.amendments.map RawAmendment.lawKey) clc cic }] ++
        s.comments.map
          (fun c =>
            { content := getTextD c.textKey
              path := sjoin (sectionPath ++ ["Comment"])
              law_info := li
              meta := .commentMeta c.typeKey num }) ++
        (List.enumFrom 1 s.paragraphs).flatMap
          (fun ip =>
            { content := getTextD ip.2.textKey
              path := sjoin (sectionPath ++ [paraComp ip.1])
              law_info := li
              meta := .paragraphMeta num } ::
              (List.enumFrom 1 ip.2.points).map
                (fun jp =>
                  { content := some jp.2
                    path := sjoin (sectionPath ++ [paraComp ip.1, pointComp jp.1])
                    law_info := li
                    meta := .pointMeta num })))
  | _, _, _ => none

/-- The chunks of one raw chapter, or `none` when `chapter['number']` raises
or some section fails. -/
def flattenRawChapter (li : LawInfo) (path : List String) (ch : RawChapter) :
    Option (List RawChunk) :=
  match ch.numberKey with
  | none => none
  | some num =>
    optFlat (flattenRawSection li ch.titleKey (path ++ ["Chapter " ++ pyStr num]))
      ch.sections

/-- `process_law` over a raw law dictionary: `none` models an uncaught
`KeyError`/`IndexError` during flattening. -/
def flattenRawLaw (path : List String) (law : RawLaw) : Option (List RawChunk) :=
  optFlat (flattenRawChapter (rawLawInfo law) path) law.chapters

/-- A raw law is builder-shaped when every chapter and section carries its
`"number"` key and every stored `case_law`/`citations` list is non-empty —
exactly the shape `parse_law` always produces. -/
def BuilderShaped (law : RawLaw) : Prop :=
  ∀ ch ∈ law.chapters, ch.numberKey.isSome = true ∧
    ∀ s ∈ ch.sections, s.numberKey.isSome = true ∧
      s.case_law ≠ some [] ∧ s.citations ≠ some []

instance : DecidablePred BuilderShaped := by
  intro law
  unfold BuilderShaped
  infer_instance

/-! ## The link classifier of `LagenNuSpider.parse` -/

/-- `True` when the first character list occurs contiguously as a prefix of
the second. -/
def isPrefixChars : List Char → List Char → Bool
  | [], _ => true
  | _ :: _, [] => false
  | a :: as, b :: bs => a == b && isPrefixChars as bs

/-- Python's `needle in hay` on character lists: contiguous substring. -/
def containsChars (n : List Char) : List Char → Bool
  | [] => isPrefixChars n []
  | b :: bs => isPrefixChars n (b :: bs) || containsChars n bs

/-- Python's `needle in hay` for strings. -/
def strContains (needle hay : String) : Bool :=
  containsChars needle.data hay.data

/-- A candidate link as seen by `parse`: the raw `href` string, the
`urlparse(href).netloc` host (empty for a relative link), and the path of the
candidate after resolution against the page URL (`urljoin`), which for an
absolute candidate is its own path. -/
structure Candidate where
  raw : String
  netloc : String
  resolvedPath : String
deriving DecidableEq

/-- The three excluded substrings of `parse`. -/
def disallowedSubs : List String := ["/api/", "/search/", "/-/"]

/-- The follow decision of `parse` (line 32): host matches or is empty, and no
excluded substring occurs anywhere in the raw `href` (the test precedes the
`urljoin` resolution, which is applied only to already-accepted links). -/
def followsCode (baseDomain : String) (c : Candidate) : Bool :=
  (c.netloc == baseDomain || c.netloc == "") &&
    !(disallowedSubs.any fun d => strContains d c.raw)

/-- Modelled from the spec's words, for comparison with `followsCode`: the
exclusion test is applied to the path of the (resolved) candidate rather than
to the raw `href` string. -/
def followsSpec (baseDomain : String) (c : Candidate) : Bool :=
  (c.netloc == baseDomain || c.netloc == "") &&
    !(disallowedSubs.any fun d => strContains d c.resolvedPath)

/-! ## The corpus accumulator of the spider -/

/-- Python dictionary lookup `d[k]` / `d.get(k)` on an ordered association
list. -/
def dictGet {α : Type} : List (String × α) → String → Option α
  | [], _ => none
  | (k, v) :: t, q => if k = q then some v else dictGet t q

/-- Python dictionary assignment `d[k] = v`: an existing key keeps its
position and gets the new value, a new key is appended. -/
def dictSet {α : Type} : List (String × α) → String → α → List (String × α)
  | [], q, v => [(q, v)]
  | (k, w) :: t, q, v => if k = q then (q, v) :: t else (k, w) :: dictSet t q v

/-- The corpus mutation of `parse_category` (line 49):
`self.data["lagen"]["lagar"][category] = {}`. -/
def initCategory (corpus : Corpus) (category : String) : Corpus :=
  dictSet corpus category []

/-- The corpus mutation of `parse_law` (line 104):
`self.data["lagen"]["lagar"][category][law_name] = law`; the outer subscript
raises a `KeyError` (`none` here) when the category was never initialised. -/
def insertLaw (corpus : Corpus) (category lawId : String) (law : Law) :
    Option Corpus :=
  match dictGet corpus category with
  | none => none
  | some laws => some (dictSet corpus category (dictSet laws lawId law))

/-- Lookup of a (category, law-id) key in the corpus. -/
def lookupLaw (corpus : Corpus) (category lawId : String) : Option Law :=
  (dictGet corpus category).bind (fun laws => dictGet laws lawId)

/-! ## The document-model builder of `LagenNuSpider.parse_law`

The builder's input is the parsed page: each selector of `parse_law` becomes a
field (`.get()` selectors as `Option String`, `.getall()` selectors as
`List String`, counted selectors as their length). -/

/-- A paragraph container: `paragraph.css('::text').get()` and
`paragraph.css('li::text').getall()`. -/
structure PageParagraph where
  text : Option String
  liTexts : List String

/-- A `section.section` container with its selector results; the two `Nat`
fields are `len(section.css('.case-law-reference'))` and
`len(section.css('.citation-reference'))`. -/
structure PageSection where
  h3 : Option String
  p : Option String
  commentTexts : List String
  amendmentTexts : List String
  caseLawRefs : Nat
  citationRefs : Nat
  paragraphs : List PageParagraph

/-- A `section.chapter` container: `h2::text`, `h2 small::text`, sections. -/
structure PageChapter where
  h2 : Option String
  h2small : Option String
  sections : List PageSection

/-- A law page: the single-value selectors of `parse_law` and the chapter
containers. -/
structure LawPage where
  h1 : Option String
  h1small : Option String
  department : Option String
  issuedDate : Option String
  lastAmended : Option String
  chapters : List PageChapter

/-- The body of `parse_law` building the `Law` record from the page (the law
name is the final segment of the page URL). -/
def buildLaw (lawName : String) (page : LawPage) : Law :=
  { id := lawName
    title := page.h1
    short_title := page.h1small
    metadata :=
      { department := page.department
        issued_date := page.issuedDate
        last_amended := { sfs := page.lastAmended } }
    chapters := page.chapters.map
      (fun ch =>
        { number := ch.h2
          title := ch.h2small
          sections := ch.sections.map
            (fun s =>
              { number := s.h3
                text := s.p
                comments := s.commentTexts.map
                  (fun t => { text := t, type := "explanation" })
                amendments := s.amendmentTexts.map (fun t => { law := t })
                case_law_count := s.caseLawRefs
                citations_count := s.citationRefs
                paragraphs := s.paragraphs.map
                  (fun p => { text := p.text, points := p.liTexts }) }) }) }

/-- Reading a little-endian digit list back as a number. -/
def ofDigitsRev : List Nat → Nat
  | [] => 0
  | d :: ds => d + 10 * ofDigitsRev ds

/-- A string not containing the character `'>'`. -/
def GtFree (s : String) : Prop := '>' ∉ s.data

instance (s : String) : Decidable (GtFree s) := by
  unfold GtFree
  infer_instance

/-- Every component of a string list avoids `'>'`. -/
def GtFreeL (r : List String) : Prop := ∀ s ∈ r, GtFree s

/-! ## Breadcrumb component lists of the flattener output -/

/-- The breadcrumb components (past the law-level path prefix) of the chunks
emitted for one section, in emission order. -/
def sectionRests (ch : Chapter) (s : Section) : List (List String) :=
  [chapterComp ch, sectionComp s] ::
    (s.comments.map (fun _ => [chapterComp ch, sectionComp s, "Comment"]) ++
      (List.enumFrom 1 s.paragraphs).flatMap
        (fun ip =>
          [chapterComp ch, sectionComp s, paraComp ip.1] ::
            (List.enumFrom 1 ip.2.points).map
              (fun jp =>
                [chapterComp ch, sectionComp s, paraComp ip.1, pointComp jp.1])))

/-- The breadcrumb component lists of all chunks of a law, in emission
order. -/
def restLists (law : Law) : List (List String) :=
  law.chapters.flatMap (fun ch => ch.sections.flatMap (sectionRests ch))

/-! ## Chunk counting -/

/-- The number of chunks `process_law` emits: per section one section chunk,
one chunk per comment, and per paragraph one chunk plus one per point. -/
def chunkCount (law : Law) : Nat :=
  (law.chapters.map (fun ch =>
    (ch.sections.map (fun s =>
      1 + s.comments.length +
        (s.paragraphs.map (fun p => 1 + p.points.length)).sum)).sum)).sum

/-! ## Substring characterisation for the link classifier -/

/-- `needle` occurs contiguously inside `hay`. -/
def SubStr (needle hay : String) : Prop :=
  ∃ pre post : List Char, hay.data = pre ++ needle.data ++ post

/-- What the `content` field of a chunk holds, by chunk kind: comment and
point chunks always hold a string; section and paragraph chunks hold the text
value of a section/paragraph of the law, which may be `None`. -/
def contentOk (law : Law) (c : Chunk) : Prop :=
  match c.meta with
  | .sectionMeta _ _ _ _ _ =>
      ∃ ch ∈ law.chapters, ∃ s ∈ ch.sections, c.content = s.text
  | .commentMeta _ _ => ∃ t : String, c.content = some t
  | .paragraphMeta _ =>
      ∃ ch ∈ law.chapters, ∃ s ∈ ch.sections, ∃ p ∈ s.paragraphs,
        c.content = p.text
  | .pointMeta _ => ∃ t : String, c.content = some t

/-! ## Claim theorems -/

/-- A law metadata record with every optional field absent. -/
def emptyLawMeta : LawMetadata :=
  { department := none, issued_date := none, last_amended := { sfs := none } }

/-- A law with one chapter and one section carrying two comments. -/
def c1CexLaw : Law :=
  { id := "lag1", title := none, short_title := none, metadata := emptyLawMeta,
    chapters := [
      { number := some "1", title := none,
        sections := [
          { number := some "1", text := some "Sektionstext",
            comments := [⟨"Kommentar ett", "explanation"⟩,
              ⟨"Kommentar tva", "explanation"⟩],
            amendments := [], case_law_count := 0, citations_count := 0,
            paragraphs := [] }] }] }

/-- A law with two chapters, distinct section numbers, at most one comment per
section, and a paragraph with two points. -/
def c1WitLaw : Law :=
  { id := "lag2", title := some "Titel", short_title := none,
    metadata := emptyLawMeta,
    chapters := [
      { number := some "1", title := some "Kap 1",
        sections := [
          { number := some "1", text := some "Text 1",
            comments := [⟨"Kommentar", "explanation"⟩],
            amendments := [⟨"SFS 1998:204"⟩], case_law_count := 2,
            citations_count := 1,
            paragraphs := [⟨some "Stycke 1", ["p1", "p2"]⟩] },
          { number := some "2", text := none, comments := [], amendments := [],
            case_law_count := 0, citations_count := 0, paragraphs := [] }] },
      { number := some "2", title := none,
        sections := [
          { number := some "1", text := some "Text 2", comments := [],
            amendments := [], case_law_count := 0, citations_count := 0,
            paragraphs := [] }] }] }

/-- A law flattening to five chunks: one section, one comment, one paragraph,
two points. -/
def c2WitLaw : Law :=
  { id := "lag", title := none, short_title := none, metadata := emptyLawMeta,
    chapters := [
      { number := some "1", title := none,
        sections := [
          { number := some "5", text := some "Ingen far...",
            comments := [⟨"Se prop. 1998", "explanation"⟩],
            amendments := [], case_law_count := 0, citations_count := 0,
            paragraphs := [⟨some "Stycke", ["punkt 1", "punkt 2"]⟩] }] }] }

/-- A law with zero chapters. -/
def c2EmptyLaw : Law :=
  { id := "tom", title := none, short_title := none, metadata := emptyLawMeta,
    chapters := [] }

/-- A relative candidate whose query string contains `/api/` while its
resolved path does not. -/
def c3Cand : Candidate :=
  { raw := "/sida?q=/api/x", netloc := "", resolvedPath := "/sida" }

/-- A clean relative candidate. -/
def c3WitCand : Candidate :=
  { raw := "/sida", netloc := "", resolvedPath := "/sida" }

/-- A raw law dictionary whose only chapter lacks the `"number"` key. -/
def c4CexRaw : RawLaw :=
  { id := some "lag", title := none, short_title := none, metadata := none,
    chapters := [{ numberKey := none, titleKey := none, sections := [] }] }

/-- A builder-shaped raw law exercising null numbers, absent texts and both
count-list encodings. -/
def c4WitRaw : RawLaw :=
  { id := some "lag", title := some "T", short_title := none,
    metadata := some
      { department := none, issued_date := some "2020-01-01",
        last_amended := some { sfs := some "SFS 2021:1" } },
    chapters := [
      { numberKey := some (some "1"), titleKey := none,
        sections := [
          { numberKey := some none, textKey := some none,
            comments := [⟨some (some "k"), some "explanation"⟩],
            amendments := [⟨some "SFS"⟩], case_law := some [⟨some 2⟩],
            citations := none,
            paragraphs := [⟨none, ["pt"]⟩] }] }] }

/-- A chapterless law used for the corpus claims. -/
def c5Law : Law :=
  { id := "lag", title := none, short_title := none, metadata := emptyLawMeta,
    chapters := [] }

/-- A one-category corpus holding one law. -/
def c5WitCorpus' : Corpus := [("a", [("x", c5Law)])]

/-- Law A for the last-write-wins claim. -/
def c6LawA : Law :=
  { id := "A", title := some "Lag A", short_title := none,
    metadata := emptyLawMeta, chapters := [] }

/-- Law B for the last-write-wins claim. -/
def c6LawB : Law :=
  { id := "B", title := some "Lag B", short_title := none,
    metadata := emptyLawMeta, chapters := [] }

/-- Intermediate corpus of the two-key witness: A inserted at ("a","x"). -/
def c6WitS1 : Corpus := [("a", [("x", c6LawA)]), ("b", [])]

/-- Final corpus of the two-key witness: B also inserted at ("b","y"). -/
def c6WitS2 : Corpus := [("a", [("x", c6LawA)]), ("b", [("y", c6LawB)])]

/-- A law whose only section stores a `null` text. -/
def c7CexLaw : Law :=
  { id := "lag", title := none, short_title := none, metadata := emptyLawMeta,
    chapters := [
      { number := some "1", title := none,
        sections := [
          { number := some "1", text := none, comments := [], amendments := [],
            case_law_count := 0, citations_count := 0, paragraphs := [] }] }] }

/-- A one-section law with a present text. -/
def c7WitLaw : Law :=
  { id := "lag", title := none, short_title := none, metadata := emptyLawMeta,
    chapters := [
      { number := some "1", title := none,
        sections := [
          { number := some "2", text := some "SektionstextW", comments := [],
            amendments := [], case_law_count := 0, citations_count := 0,
            paragraphs := [] }] }] }

/-- A one-section law with law-level metadata present. -/
def c10WitLaw : Law :=
  { id := "lag10", title := some "Titel", short_title := some "T",
    metadata := { department := some "Justitiedepartementet",
                  issued_date := some "1998-01-01",
                  last_amended := { sfs := some "SFS 2010:5" } },
    chapters := [
      { number := some "3", title := none,
        sections := [
          { number := some "4", text := some "Text", comments := [],
            amendments := [], case_law_count := 0, citations_count := 0,
            paragraphs := [] }] }] }

/-! ### Theorems -/

/-- A fold whose step appends an emitted list is an append of a `flatMap`. -/
theorem foldl_emit {α β : Type} (g : List β → α → List β) (f : α → List β)
    (h : ∀ a x, g a x = a ++ f x) :
    ∀ (l : List α) (acc : List β), l.foldl g acc = acc ++ l.flatMap f := by
  intro l
  induction l with
  | nil => intro acc; simp
  | cons x xs ih =>
      intro acc
      simp [List.foldl_cons, h, ih, List.flatMap_cons, List.append_assoc]

/-- The fold-based flattener equals its structural flatMap form. -/
theorem processLaw_eq_struct (path : List String) (law : Law) :
    processLaw path law = processLawStruct path law := by
  unfold processLaw processLawStruct
  have hpoints : ∀ (li : LawInfo) (sectionPath : List String) (s : Section)
      (i : Nat) (p : Paragraph) (acc : List Chunk),
      (List.enumFrom 1 p.points).foldl
          (fun chunks jp => chunks ++ [mkPointChunk li sectionPath s i jp.1 jp.2]) acc =
        acc ++ (List.enumFrom 1 p.points).flatMap
          (fun jp => [mkPointChunk li sectionPath s i jp.1 jp.2]) := by
    intro li sectionPath s i p acc
    exact foldl_emit _ _ (fun a x => rfl) _ acc
  have hcomments : ∀ (li : LawInfo) (sectionPath : List String) (s : Section)
      (acc : List Chunk),
      s.comments.foldl
          (fun chunks c => chunks ++ [mkCommentChunk li sectionPath s c]) acc =
        acc ++ s.comments.flatMap (fun c => [mkCommentChunk li sectionPath s c]) := by
    intro li sectionPath s acc
    exact foldl_emit _ _ (fun a x => rfl) _ acc
  have hparas : ∀ (li : LawInfo) (sectionPath : List String) (s : Section)
      (acc : List Chunk),
      (List.enumFrom 1 s.paragraphs).foldl
          (fun chunks ip =>
            (List.enumFrom 1 ip.2.points).foldl
              (fun chunks jp => chunks ++ [mkPointChunk li sectionPath s ip.1 jp.1 jp.2])
              (chunks ++ [mkParaChunk li sectionPath s ip.1 ip.2])) acc =
        acc ++ (List.enumFrom 1 s.paragraphs).flatMap
          (fun ip =>
            [mkParaChunk li sectionPath s ip.1 ip.2] ++
              (List.enumFrom 1 ip.2.points).flatMap
                (fun jp => [mkPointChunk li sectionPath s ip.1 jp.1 jp.2])) := by
    intro li sectionPath s acc
    refine foldl_emit _ _ (fun a ip => ?_) _ acc
    rw [hpoints, List.append_assoc]
  have hsections : ∀ (li : LawInfo) (chapterPath : List String) (ch : Chapter)
      (acc : List Chunk),
      ch.sections.foldl
          (fun chunks s =>
            let sectionPath := chapterPath ++ [sectionComp s]
            (List.enumFrom 1 s.paragraphs).foldl
              (fun chunks ip =>
                (List.enumFrom 1 ip.2.points).foldl
                  (fun chunks jp =>
                    chunks ++ [mkPointChunk li sectionPath s ip.1 jp.1 jp.2])
                  (chunks ++ [mkParaChunk li sectionPath s ip.1 ip.2]))
              (s.comments.foldl
                (fun chunks c => chunks ++ [mkCommentChunk li sectionPath s c])
                (chunks ++ [mkSectionChunk li ch sectionPath s]))) acc =
        acc ++ ch.sections.flatMap (sectionChunks li chapterPath ch) := by
    intro li chapterPath ch acc
    refine foldl_emit _ _ (fun a s => ?_) _ acc
    show (List.enumFrom 1 s.paragraphs).foldl _
        (s.comments.foldl _ (a ++ [mkSectionChunk li ch (chapterPath ++ [sectionComp s]) s])) =
      a ++ sectionChunks li chapterPath ch s
    rw [hcomments, hparas, sectionChunks]
    simp [List.append_assoc]
  refine foldl_emit _ _ (fun a ch => ?_) _ []
  exact hsections (lawInfoOf law) (path ++ [chapterComp ch]) ch a

/-! ## String and rendering lemmas -/

theorem strExt {a b : String} (h : a.data = b.data) : a = b :=
  congrArg String.mk h

theorem strData_append (a b : String) : (a ++ b).data = a.data ++ b.data := rfl

theorem strAppend_left_cancel {a b c : String} (h : a ++ b = a ++ c) : b = c := by
  apply strExt
  have h2 := congrArg String.data h
  simpa [strData_append] using h2

theorem natDigitsRev_spec :
    ∀ (fuel n : Nat), n ≤ fuel → ofDigitsRev (natDigitsRev fuel n) = n := by
  intro fuel
  induction fuel with
  | zero =>
      intro n h
      interval_cases n
      simp [natDigitsRev, ofDigitsRev]
  | succ fuel ih =>
      intro n h
      match n with
      | 0 => simp [natDigitsRev, ofDigitsRev]
      | n + 1 =>
          have hlt : (n + 1) / 10 < n + 1 := Nat.div_lt_self (Nat.succ_pos n) (by omega)
          have hdiv : (n + 1) / 10 ≤ fuel := by omega
          have hmd := Nat.mod_add_div (n + 1) 10
          simp [natDigitsRev, ofDigitsRev, ih _ hdiv]
          omega

theorem natDigitsRev_lt :
    ∀ (fuel n : Nat), ∀ d ∈ natDigitsRev fuel n, d < 10 := by
  intro fuel
  induction fuel with
  | zero => intro n d hd; simp [natDigitsRev] at hd
  | succ fuel ih =>
      intro n d hd
      match n with
      | 0 => simp [natDigitsRev] at hd
      | n + 1 =>
          simp [natDigitsRev] at hd
          rcases hd with h | h
          · subst h; omega
          · exact ih _ _ h

theorem digitChar_inj {a b : Nat} (ha : a < 10) (hb : b < 10)
    (h : Nat.digitChar a = Nat.digitChar b) : a = b := by
  interval_cases a <;> interval_cases b <;> revert h <;> decide

theorem digitChar_ne_gt {a : Nat} (ha : a < 10) : Nat.digitChar a ≠ '>' := by
  interval_cases a <;> decide

theorem map_digitChar_inj :
    ∀ (l1 l2 : List Nat), (∀ d ∈ l1, d < 10) → (∀ d ∈ l2, d < 10) →
      l1.map Nat.digitChar = l2.map Nat.digitChar → l1 = l2 := by
  intro l1
  induction l1 with
  | nil => intro l2 _ _ h; cases l2 <;> simp_all
  | cons a t ih =>
      intro l2 h1 h2 h
      cases l2 with
      | nil => simp at h
      | cons b t2 =>
          simp only [List.map_cons, List.cons.injEq] at h
          obtain ⟨hab, ht⟩ := h
          have hab2 := digitChar_inj (h1 a (by simp)) (h2 b (by simp)) hab
          subst hab2
          have ht2 := ih t2 (fun d hd => h1 d (by simp [hd]))
            (fun d hd => h2 d (by simp [hd])) ht
          simp [ht2]

theorem natRepr_ne_zero_data {n : Nat} (h : n ≠ 0) :
    (natRepr n).data = ((natDigitsRev n n).map Nat.digitChar).reverse := by
  simp [natRepr, h]

theorem natRepr_inj : ∀ {m n : Nat}, natRepr m = natRepr n → m = n := by
  have key : ∀ k : Nat, k ≠ 0 →
      ((natDigitsRev k k).map Nat.digitChar).reverse = ['0'] → False := by
    intro k hk h
    have h2 : (natDigitsRev k k).map Nat.digitChar = ['0'] := by
      have h3 := congrArg List.reverse h
      simpa using h3
    match hl : natDigitsRev k k with
    | [] => rw [hl] at h2; simp at h2
    | [d] =>
        rw [hl] at h2
        simp only [List.map_cons, List.map_nil, List.cons.injEq, and_true] at h2
        have hd : d < 10 := natDigitsRev_lt k k d (by rw [hl]; simp)
        have hzero : Nat.digitChar d = Nat.digitChar 0 := by rw [h2]; decide
        have hd0 : d = 0 := digitChar_inj hd (by omega) hzero
        have hs := natDigitsRev_spec k k (Nat.le_refl k)
        rw [hl, hd0] at hs
        simp [ofDigitsRev] at hs
        omega
    | d :: e :: t => rw [hl] at h2; simp at h2
  intro m n h
  by_cases hm : m = 0 <;> by_cases hn : n = 0
  · omega
  · exfalso
    apply key n hn
    have hd := congrArg String.data h
    rw [hm] at hd
    rw [natRepr_ne_zero_data hn] at hd
    exact hd.symm
  · exfalso
    apply key m hm
    have hd := congrArg String.data h
    rw [hn] at hd
    rw [natRepr_ne_zero_data hm] at hd
    exact hd
  · have hd := congrArg String.data h
    rw [natRepr_ne_zero_data hm, natRepr_ne_zero_data hn] at hd
    have hmap := List.reverse_injective hd
    have hlists := map_digitChar_inj _ _ (natDigitsRev_lt m m) (natDigitsRev_lt n n) hmap
    have h1 := natDigitsRev_spec m m (Nat.le_refl m)
    have h2 := natDigitsRev_spec n n (Nat.le_refl n)
    rw [hlists] at h1
    omega

theorem natRepr_gtFree (n : Nat) : GtFree (natRepr n) := by
  unfold GtFree
  by_cases h : n = 0
  · subst h; decide
  · rw [natRepr_ne_zero_data h]
    intro hmem
    rw [List.mem_reverse, List.mem_map] at hmem
    obtain ⟨d, hd, hc⟩ := hmem
    exact digitChar_ne_gt (natDigitsRev_lt n n d hd) hc

theorem gtFree_append {a b : String} (ha : GtFree a) (hb : GtFree b) :
    GtFree (a ++ b) := by
  unfold GtFree at *
  rw [strData_append]
  intro h
  rcases List.mem_append.1 h with h | h
  · exact ha h
  · exact hb h

theorem strAppend_assoc (a b c : String) : a ++ b ++ c = a ++ (b ++ c) :=
  strExt (by simp [strData_append])

theorem sjoin_cons (a : String) (l : List String) (h : l ≠ []) :
    sjoin (a :: l) = a ++ " > " ++ sjoin l := by
  match l with
  | [] => exact absurd rfl h
  | b :: t => rfl

theorem sjoin_append (l1 l2 : List String) (h1 : l1 ≠ []) (h2 : l2 ≠ []) :
    sjoin (l1 ++ l2) = sjoin l1 ++ " > " ++ sjoin l2 := by
  induction l1 with
  | nil => exact absurd rfl h1
  | cons a t ih =>
      cases t with
      | nil => simpa using sjoin_cons a l2 h2
      | cons b t2 =>
          have step : sjoin ((a :: b :: t2) ++ l2) =
              a ++ " > " ++ sjoin ((b :: t2) ++ l2) := by
            rw [List.cons_append]
            exact sjoin_cons a ((b :: t2) ++ l2) (by simp)
          rw [step, ih (by simp), sjoin_cons a (b :: t2) (by simp)]
          simp [strAppend_assoc]

theorem takeWhile_gtfree :
    ∀ (l : List Char), '>' ∉ l → ∀ rest : List Char,
      (l ++ ' ' :: '>' :: rest).takeWhile (fun c => c != '>') = l ++ [' '] := by
  intro l
  induction l with
  | nil =>
      intro _ rest
      simp [List.takeWhile_cons]
  | cons a t ih =>
      intro h rest
      have ha : a ≠ '>' := by
        intro e
        exact h (by simp [e])
      have ht : '>' ∉ t := fun hm => h (List.mem_cons_of_mem _ hm)
      simp [List.takeWhile_cons, ha, ih ht rest]

theorem sjoin_data_cons2 (a b : String) (t : List String) :
    (sjoin (a :: b :: t)).data =
      a.data ++ ' ' :: '>' :: ' ' :: (sjoin (b :: t)).data := by
  have h := sjoin_cons a (b :: t) (by simp)
  have hd := congrArg String.data h
  rw [strData_append, strData_append] at hd
  rw [hd]
  simp

theorem gt_mem_sjoin_data_cons2 (a b : String) (t : List String) :
    '>' ∈ (sjoin (a :: b :: t)).data := by
  rw [sjoin_data_cons2]
  simp

theorem sjoin_inj :
    ∀ (r1 r2 : List String), GtFreeL r1 → GtFreeL r2 → r1 ≠ [] → r2 ≠ [] →
      sjoin r1 = sjoin r2 → r1 = r2 := by
  intro r1
  induction r1 with
  | nil => intro r2 _ _ n1 _ _; exact absurd rfl n1
  | cons a t1 ih =>
      intro r2 h1 h2 _ n2 he
      cases t1 with
      | nil =>
          cases r2 with
          | nil => exact absurd rfl n2
          | cons b t2 =>
              cases t2 with
              | nil => simpa [sjoin] using he
              | cons c t3 =>
                  exfalso
                  have hgt := gt_mem_sjoin_data_cons2 b c t3
                  rw [← he] at hgt
                  exact h1 a (by simp) hgt
      | cons a1 t1' =>
          cases r2 with
          | nil => exact absurd rfl n2
          | cons b t2 =>
              cases t2 with
              | nil =>
                  exfalso
                  have hgt := gt_mem_sjoin_data_cons2 a a1 t1'
                  rw [he] at hgt
                  exact h2 b (by simp) hgt
              | cons b1 t2' =>
                  have hd := congrArg String.data he
                  rw [sjoin_data_cons2, sjoin_data_cons2] at hd
                  have hga : '>' ∉ a.data := h1 a (by simp)
                  have hgb : '>' ∉ b.data := h2 b (by simp)
                  have htw := congrArg (List.takeWhile (fun c => c != '>')) hd
                  rw [show a.data ++ ' ' :: '>' :: ' ' :: (sjoin (a1 :: t1')).data =
                      a.data ++ ' ' :: '>' :: (' ' :: (sjoin (a1 :: t1')).data) from rfl] at htw
                  rw [show b.data ++ ' ' :: '>' :: ' ' :: (sjoin (b1 :: t2')).data =
                      b.data ++ ' ' :: '>' :: (' ' :: (sjoin (b1 :: t2')).data) from rfl] at htw
                  rw [takeWhile_gtfree a.data hga, takeWhile_gtfree b.data hgb] at htw
                  have hab : a.data = b.data := List.append_cancel_right htw
                  have hab2 : a = b := strExt hab
                  rw [hab] at hd
                  have hrest := List.append_cancel_left hd
                  simp only [List.cons.injEq, true_and] at hrest
                  have hsj : sjoin (a1 :: t1') = sjoin (b1 :: t2') := strExt hrest
                  have hih := ih (b1 :: t2')
                    (fun s hs => h1 s (List.mem_cons_of_mem _ hs))
                    (fun s hs => h2 s (List.mem_cons_of_mem _ hs))
                    (by simp) (by simp) hsj
                  rw [hab2, hih]

theorem sjoin_base_inj (base : List String) {r1 r2 : List String}
    (h1 : GtFreeL r1) (h2 : GtFreeL r2) (n1 : r1 ≠ []) (n2 : r2 ≠ [])
    (h : sjoin (base ++ r1) = sjoin (base ++ r2)) : r1 = r2 := by
  cases base with
  | nil => exact sjoin_inj r1 r2 h1 h2 n1 n2 (by simpa using h)
  | cons x xs =>
      rw [sjoin_append (x :: xs) r1 (by simp) n1,
        sjoin_append (x :: xs) r2 (by simp) n2] at h
      exact sjoin_inj r1 r2 h1 h2 n1 n2 (strAppend_left_cancel h)

/-! ## Enumeration helpers -/

theorem enumFrom_mem_fst_ge {α : Type} :
    ∀ (m : Nat) (l : List α) (y : Nat × α), y ∈ List.enumFrom m l → m ≤ y.1 := by
  intro m l
  induction l generalizing m with
  | nil => intro y hy; simp [List.enumFrom] at hy
  | cons x xs ih =>
      intro y hy
      rw [List.enumFrom] at hy
      rcases List.mem_cons.1 hy with h | h
      · subst h; exact Nat.le_refl m
      · have := ih (m + 1) y h
        omega

theorem enumFrom_pairwise_fst_lt {α : Type} :
    ∀ (m : Nat) (l : List α),
      (List.enumFrom m l).Pairwise (fun a b => a.1 < b.1) := by
  intro m l
  induction l generalizing m with
  | nil => simp [List.enumFrom]
  | cons x xs ih =>
      rw [List.enumFrom]
      refine List.Pairwise.cons ?_ (ih (m + 1))
      intro y hy
      have := enumFrom_mem_fst_ge (m + 1) xs y hy
      simp
      omega

theorem enumFrom_mem_snd {α : Type} {m : Nat} {l : List α} {y : Nat × α}
    (h : y ∈ List.enumFrom m l) : y.2 ∈ l := by
  have hm : y.2 ∈ (List.enumFrom m l).map Prod.snd := List.mem_map_of_mem Prod.snd h
  rwa [List.enumFrom_map_snd] at hm

/-- Every member of `sectionRests` has one of the four chunk shapes. -/
theorem mem_sectionRests {ch : Chapter} {s : Section} {r : List String}
    (h : r ∈ sectionRests ch s) :
    r = [chapterComp ch, sectionComp s] ∨
      r = [chapterComp ch, sectionComp s, "Comment"] ∨
      (∃ i, 1 ≤ i ∧
        (r = [chapterComp ch, sectionComp s, paraComp i] ∨
          ∃ j, 1 ≤ j ∧
            r = [chapterComp ch, sectionComp s, paraComp i, pointComp j])) := by
  rw [sectionRests] at h
  rcases List.mem_cons.1 h with h | h
  · exact Or.inl h
  rcases List.mem_append.1 h with h | h
  · rcases List.mem_map.1 h with ⟨c, _, hc⟩
    exact Or.inr (Or.inl hc.symm)
  rcases List.mem_flatMap.1 h with ⟨ip, hip, hr⟩
  have hi : 1 ≤ ip.1 := enumFrom_mem_fst_ge 1 s.paragraphs ip hip
  rcases List.mem_cons.1 hr with h | h
  · exact Or.inr (Or.inr ⟨ip.1, hi, Or.inl h⟩)
  · rcases List.mem_map.1 h with ⟨jp, hjp, hj⟩
    have hj1 : 1 ≤ jp.1 := enumFrom_mem_fst_ge 1 ip.2.points jp hjp
    exact Or.inr (Or.inr ⟨ip.1, hi, Or.inr ⟨jp.1, hj1, hj.symm⟩⟩)

theorem mem_restLists {law : Law} {r : List String} (h : r ∈ restLists law) :
    ∃ ch ∈ law.chapters, ∃ s ∈ ch.sections, r ∈ sectionRests ch s := by
  rw [restLists] at h
  rcases List.mem_flatMap.1 h with ⟨ch, hch, h2⟩
  rcases List.mem_flatMap.1 h2 with ⟨s, hs, h3⟩
  exact ⟨ch, hch, s, hs, h3⟩

theorem paraComp_ne_comment (i : Nat) : paraComp i ≠ "Comment" := by
  intro h
  have hd := congrArg String.data h
  rw [paraComp, strData_append] at hd
  have hl := congrArg List.length hd
  rw [List.length_append] at hl
  have h1 : ("Paragraph " : String).data.length = 10 := by decide
  have h2 : ("Comment" : String).data.length = 7 := by decide
  rw [h1, h2] at hl
  omega

theorem paraComp_inj {i j : Nat} (h : paraComp i = paraComp j) : i = j :=
  natRepr_inj (strAppend_left_cancel h)

theorem pointComp_inj {i j : Nat} (h : pointComp i = pointComp j) : i = j :=
  natRepr_inj (strAppend_left_cancel h)

theorem chapterComp_gtFree {ch : Chapter} (h : GtFree (pyStr ch.number)) :
    GtFree (chapterComp ch) :=
  gtFree_append (by decide) h

theorem sectionComp_gtFree {s : Section} (h : GtFree (pyStr s.number)) :
    GtFree (sectionComp s) :=
  gtFree_append (by decide) h

theorem paraComp_gtFree (i : Nat) : GtFree (paraComp i) :=
  gtFree_append (by decide) (natRepr_gtFree i)

theorem pointComp_gtFree (j : Nat) : GtFree (pointComp j) :=
  gtFree_append (by decide) (natRepr_gtFree j)

/-- Members of `sectionRests` are non-empty and, given `'>'`-free chapter and
section numbers, consist of `'>'`-free components. -/
theorem mem_sectionRests_gtFree {ch : Chapter} {s : Section} {r : List String}
    (hch : GtFree (pyStr ch.number)) (hs : GtFree (pyStr s.number))
    (h : r ∈ sectionRests ch s) : r ≠ [] ∧ GtFreeL r := by
  have hc := chapterComp_gtFree hch
  have hsec := sectionComp_gtFree hs
  rcases mem_sectionRests h with h | h | ⟨i, _, h | ⟨j, _, h⟩⟩ <;> subst h
  · exact ⟨by simp, by
      intro x hx
      rcases List.mem_cons.1 hx with h | h
      · subst h; exact hc
      · rcases List.mem_cons.1 h with h | h
        · subst h; exact hsec
        · simp at h⟩
  · refine ⟨by simp, ?_⟩
    intro x hx
    rcases List.mem_cons.1 hx with h | h
    · subst h; exact hc
    rcases List.mem_cons.1 h with h | h
    · subst h; exact hsec
    rcases List.mem_cons.1 h with h | h
    · subst h; decide
    · simp at h
  · refine ⟨by simp, ?_⟩
    intro x hx
    rcases List.mem_cons.1 hx with h | h
    · subst h; exact hc
    rcases List.mem_cons.1 h with h | h
    · subst h; exact hsec
    rcases List.mem_cons.1 h with h | h
    · subst h; exact paraComp_gtFree i
    · simp at h
  · refine ⟨by simp, ?_⟩
    intro x hx
    rcases List.mem_cons.1 hx with h | h
    · subst h; exact hc
    rcases List.mem_cons.1 h with h | h
    · subst h; exact hsec
    rcases List.mem_cons.1 h with h | h
    · subst h; exact paraComp_gtFree i
    rcases List.mem_cons.1 h with h | h
    · subst h; exact pointComp_gtFree j
    · simp at h

/-- Shape of the members of one paragraph block of `sectionRests`. -/
theorem mem_paraBlock {cc sc : String} {i : Nat} {pts : List (Nat × String)}
    {r : List String}
    (h : r ∈ [cc, sc, paraComp i] ::
      pts.map (fun jp => [cc, sc, paraComp i, pointComp jp.1])) :
    r = [cc, sc, paraComp i] ∨ ∃ j, r = [cc, sc, paraComp i, pointComp j] := by
  rcases List.mem_cons.1 h with h | h
  · exact Or.inl h
  · rcases List.mem_map.1 h with ⟨jp, _, hj⟩
    exact Or.inr ⟨jp.1, hj.symm⟩

theorem sectionRests_nodup {ch : Chapter} {s : Section}
    (hcom : s.comments.length ≤ 1) : (sectionRests ch s).Nodup := by
  rw [sectionRests]
  rw [List.nodup_cons]
  constructor
  · intro h
    rcases List.mem_append.1 h with h | h
    · rcases List.mem_map.1 h with ⟨c, _, hc⟩
      simp at hc
    · rcases List.mem_flatMap.1 h with ⟨ip, _, hr⟩
      rcases mem_paraBlock hr with h | ⟨j, h⟩ <;> simp at h
  · refine List.Nodup.append ?_ ?_ ?_
    · match hc : s.comments with
      | [] => simp
      | [c] => simp
      | a :: b :: t =>
          rw [hc] at hcom
          simp at hcom
    · rw [List.nodup_flatMap]
      constructor
      · intro ip _
        rw [List.nodup_cons]
        constructor
        · intro h
          rcases List.mem_map.1 h with ⟨jp, _, hj⟩
          simp at hj
        · have hp := enumFrom_pairwise_fst_lt 1 ip.2.points
          have hp2 : (List.enumFrom 1 ip.2.points).Pairwise
              (fun a b =>
                [chapterComp ch, sectionComp s, paraComp ip.1, pointComp a.1] ≠
                  [chapterComp ch, sectionComp s, paraComp ip.1, pointComp b.1]) := by
            refine hp.imp ?_
            intro a b hlt heq
            simp only [List.cons.injEq, and_true, true_and] at heq
            have := pointComp_inj heq
            omega
          exact List.pairwise_map.2 hp2
      · have hp := enumFrom_pairwise_fst_lt 1 s.paragraphs
        refine hp.imp ?_
        intro a b hlt
        intro r h1 h2
        rcases mem_paraBlock h1 with h1 | ⟨j1, h1⟩ <;>
          rcases mem_paraBlock h2 with h2 | ⟨j2, h2⟩
        · rw [h1] at h2
          simp only [List.cons.injEq, and_true, true_and] at h2
          have := paraComp_inj h2
          omega
        · rw [h1] at h2
          simp at h2
        · rw [h1] at h2
          simp at h2
        · rw [h1] at h2
          simp at h2
          have := paraComp_inj h2.1
          omega
    · intro r h1 h2
      rcases List.mem_map.1 h1 with ⟨c, _, hc⟩
      rcases List.mem_flatMap.1 h2 with ⟨ip, _, hr⟩
      rcases mem_paraBlock hr with h | ⟨j, h⟩
      · rw [← hc] at h
        simp only [List.cons.injEq] at h
        exact paraComp_ne_comment ip.1 h.2.2.1.symm
      · rw [← hc] at h
        simp at h

/-- Members of a chapter's block of `restLists` start with that chapter's
component followed by one of its sections' components. -/
theorem mem_sectionRests_shape {ch : Chapter} {s : Section} {r : List String}
    (h : r ∈ sectionRests ch s) :
    ∃ t, r = chapterComp ch :: sectionComp s :: t := by
  rcases mem_sectionRests h with h | h | ⟨i, _, h | ⟨j, _, h⟩⟩ <;> exact ⟨_, h⟩

theorem restLists_nodup (law : Law)
    (hch : law.chapters.Pairwise (fun a b => chapterComp a ≠ chapterComp b))
    (hsec : ∀ ch ∈ law.chapters,
      ch.sections.Pairwise (fun a b => sectionComp a ≠ sectionComp b))
    (hcom : ∀ ch ∈ law.chapters, ∀ s ∈ ch.sections, s.comments.length ≤ 1) :
    (restLists law).Nodup := by
  rw [restLists, List.nodup_flatMap]
  constructor
  · intro ch hch2
    rw [List.nodup_flatMap]
    constructor
    · intro s hs
      exact sectionRests_nodup (hcom ch hch2 s hs)
    · refine List.Pairwise.imp ?_ (hsec ch hch2)
      intro s1 s2 hne r h1 h2
      obtain ⟨t1, ht1⟩ := mem_sectionRests_shape h1
      obtain ⟨t2, ht2⟩ := mem_sectionRests_shape h2
      rw [ht1] at ht2
      simp only [List.cons.injEq] at ht2
      exact hne ht2.2.1
  · refine List.Pairwise.imp ?_ hch
    intro c1 c2 hne r h1 h2
    rcases List.mem_flatMap.1 h1 with ⟨s1, _, hs1⟩
    rcases List.mem_flatMap.1 h2 with ⟨s2, _, hs2⟩
    obtain ⟨t1, ht1⟩ := mem_sectionRests_shape hs1
    obtain ⟨t2, ht2⟩ := mem_sectionRests_shape hs2
    rw [ht1] at ht2
    simp only [List.cons.injEq] at ht2
    exact hne ht2.1

theorem flatMap_congr' {α β : Type} {l : List α} {f g : α → List β}
    (h : ∀ a ∈ l, f a = g a) : l.flatMap f = l.flatMap g := by
  induction l with
  | nil => rfl
  | cons x xs ih =>
      rw [List.flatMap_cons, List.flatMap_cons, h x (by simp),
        ih (fun a ha => h a (by simp [ha]))]

theorem flatMap_singleton_map {α β : Type} (f : α → β) (l : List α) :
    (l.flatMap fun x => [f x]) = l.map f := by
  induction l with
  | nil => rfl
  | cons x xs ih => rw [List.flatMap_cons, ih]; rfl

/-- The path of each chunk of one section is the law-level prefix joined with
the chunk's breadcrumb components. -/
theorem sectionChunks_paths (li : LawInfo) (path : List String) (ch : Chapter)
    (s : Section) :
    (sectionChunks li (path ++ [chapterComp ch]) ch s).map Chunk.path =
      (sectionRests ch s).map (fun r => sjoin (path ++ r)) := by
  simp [sectionChunks, sectionRests, mkSectionChunk, mkCommentChunk,
    mkParaChunk, mkPointChunk, List.map_flatMap, List.map_map,
    Function.comp_def, flatMap_singleton_map, List.append_assoc]

/-- The chunk paths of the flattened law are the joins of the law-level prefix
with the breadcrumb component lists. -/
theorem paths_eq (path : List String) (law : Law) :
    (processLaw path law).map Chunk.path =
      (restLists law).map (fun r => sjoin (path ++ r)) := by
  rw [processLaw_eq_struct, processLawStruct, restLists]
  rw [List.map_flatMap, List.map_flatMap]
  refine flatMap_congr' ?_
  intro ch _
  rw [List.map_flatMap, List.map_flatMap]
  refine flatMap_congr' ?_
  intro s _
  exact sectionChunks_paths (lawInfoOf law) path ch s

theorem lengthFlatMap {α β : Type} (l : List α) (f : α → List β) :
    (l.flatMap f).length = (l.map fun a => (f a).length).sum := by
  induction l with
  | nil => rfl
  | cons x xs ih => simp [List.flatMap_cons, ih]

theorem enumFrom_map_comp_snd {α β : Type} (g : α → β) (n : Nat) (l : List α) :
    (List.enumFrom n l).map (fun ip => g ip.2) = l.map g := by
  have h : (fun ip : Nat × α => g ip.2) = g ∘ Prod.snd := rfl
  rw [h, ← List.map_map, List.enumFrom_map_snd]

theorem sectionChunks_length (li : LawInfo) (cp : List String) (ch : Chapter)
    (s : Section) :
    (sectionChunks li cp ch s).length =
      1 + s.comments.length +
        (s.paragraphs.map (fun p => 1 + p.points.length)).sum := by
  rw [sectionChunks]
  rw [List.length_append, List.length_append, flatMap_singleton_map,
    List.length_map, lengthFlatMap]
  have h1 : ∀ ip ∈ List.enumFrom 1 s.paragraphs,
      ([mkParaChunk li (cp ++ [sectionComp s]) s ip.1 ip.2] ++
        (List.enumFrom 1 ip.2.points).flatMap
          (fun jp => [mkPointChunk li (cp ++ [sectionComp s]) s ip.1 jp.1 jp.2])).length =
      1 + ip.2.points.length := by
    intro ip _
    rw [List.length_append, flatMap_singleton_map, List.length_map,
      List.enumFrom_length]
    simp
  rw [List.map_congr_left h1,
    enumFrom_map_comp_snd (fun p => 1 + p.points.length) 1 s.paragraphs]
  simp

theorem processLaw_length (path : List String) (law : Law) :
    (processLaw path law).length = chunkCount law := by
  rw [processLaw_eq_struct, processLawStruct, chunkCount, lengthFlatMap]
  congr 1
  refine List.map_congr_left ?_
  intro ch _
  rw [lengthFlatMap]
  congr 1
  refine List.map_congr_left ?_
  intro s _
  exact sectionChunks_length _ _ ch s

/-! ## Membership facts about the flattener output -/

theorem mem_sectionChunks {li : LawInfo} {cp : List String} {ch : Chapter}
    {s : Section} {c : Chunk} (h : c ∈ sectionChunks li cp ch s) :
    (∃ sp, c = mkSectionChunk li ch sp s) ∨
      (∃ sp, ∃ cm ∈ s.comments, c = mkCommentChunk li sp s cm) ∨
      (∃ sp i, ∃ p ∈ s.paragraphs, c = mkParaChunk li sp s i p) ∨
      (∃ sp i j, ∃ p ∈ s.paragraphs, ∃ pt ∈ p.points,
        c = mkPointChunk li sp s i j pt) := by
  rw [sectionChunks] at h
  rcases List.mem_append.1 h with h | h
  · rcases List.mem_append.1 h with h | h
    · exact Or.inl ⟨_, (List.mem_singleton.1 h)⟩
    · rcases List.mem_flatMap.1 h with ⟨cm, hcm, hc⟩
      exact Or.inr (Or.inl ⟨_, cm, hcm, List.mem_singleton.1 hc⟩)
  · rcases List.mem_flatMap.1 h with ⟨ip, hip, hc⟩
    have hpmem : ip.2 ∈ s.paragraphs := enumFrom_mem_snd hip
    rcases List.mem_cons.1 hc with hc | hc
    · exact Or.inr (Or.inr (Or.inl ⟨_, ip.1, ip.2, hpmem, hc⟩))
    · rcases List.mem_flatMap.1 hc with ⟨jp, hjp, hc2⟩
      have hptmem : jp.2 ∈ ip.2.points := enumFrom_mem_snd hjp
      exact Or.inr (Or.inr (Or.inr
        ⟨_, ip.1, jp.1, ip.2, hpmem, jp.2, hptmem, List.mem_singleton.1 hc2⟩))

theorem mem_processLaw {path : List String} {law : Law} {c : Chunk}
    (h : c ∈ processLaw path law) :
    ∃ ch ∈ law.chapters, ∃ s ∈ ch.sections,
      c ∈ sectionChunks (lawInfoOf law) (path ++ [chapterComp ch]) ch s := by
  rw [processLaw_eq_struct, processLawStruct] at h
  rcases List.mem_flatMap.1 h with ⟨ch, hch, h2⟩
  rcases List.mem_flatMap.1 h2 with ⟨s, hs, h3⟩
  exact ⟨ch, hch, s, hs, h3⟩

/-! ## Corpus dictionary lemmas -/

theorem dictGet_dictSet_self {α : Type} (l : List (String × α)) (k : String)
    (v : α) : dictGet (dictSet l k v) k = some v := by
  induction l with
  | nil => simp [dictSet, dictGet]
  | cons p t ih =>
      obtain ⟨a, b⟩ := p
      by_cases h : a = k
      · simp [dictSet, dictGet, h]
      · simp [dictSet, dictGet, h, ih]

theorem dictGet_dictSet_ne {α : Type} (l : List (String × α)) (k : String)
    (v : α) (k' : String) (h : k ≠ k') :
    dictGet (dictSet l k v) k' = dictGet l k' := by
  induction l with
  | nil => simp [dictSet, dictGet, h]
  | cons p t ih =>
      obtain ⟨a, b⟩ := p
      by_cases h2 : a = k
      · subst h2
        simp [dictSet, dictGet, h]
      · simp [dictSet, dictGet, h2, ih]

/-! ## Totality of the raw flattener on builder-shaped laws -/

theorem optFlat_isSome {α β : Type} (f : α → Option (List β)) (l : List α)
    (h : ∀ x ∈ l, (f x).isSome = true) : (optFlat f l).isSome = true := by
  induction l with
  | nil => rfl
  | cons x xs ih =>
      obtain ⟨cs, hcs⟩ := Option.isSome_iff_exists.1 (h x (by simp))
      obtain ⟨rest, hrest⟩ :=
        Option.isSome_iff_exists.1 (ih (fun y hy => h y (by simp [hy])))
      simp [optFlat, hcs, hrest]

theorem rawCount_isSome {c : Option (List RawCountEntry)} (h : c ≠ some []) :
    (rawCount c).isSome = true := by
  cases c with
  | none => rfl
  | some l =>
      cases l with
      | nil => exact absurd rfl h
      | cons e t => rfl

theorem flattenRawSection_isSome {li : LawInfo} {ct : Option String}
    {cp : List String} {s : RawSection} (hn : s.numberKey.isSome = true)
    (hcl : s.case_law ≠ some []) (hci : s.citations ≠ some []) :
    (flattenRawSection li ct cp s).isSome = true := by
  obtain ⟨num, hnum⟩ := Option.isSome_iff_exists.1 hn
  obtain ⟨clc, hclc⟩ := Option.isSome_iff_exists.1 (rawCount_isSome hcl)
  obtain ⟨cic, hcic⟩ := Option.isSome_iff_exists.1 (rawCount_isSome hci)
  rw [flattenRawSection, hnum, hclc, hcic]
  rfl

theorem flattenRawLaw_isSome (path : List String) (law : RawLaw)
    (h : BuilderShaped law) : (flattenRawLaw path law).isSome = true := by
  rw [flattenRawLaw]
  refine optFlat_isSome _ _ ?_
  intro ch hch
  obtain ⟨hnum, hsec⟩ := h ch hch
  obtain ⟨num, hn⟩ := Option.isSome_iff_exists.1 hnum
  rw [flattenRawChapter, hn]
  refine optFlat_isSome _ _ ?_
  intro s hs
  obtain ⟨h1, h2, h3⟩ := hsec s hs
  exact flattenRawSection_isSome h1 h2 h3

theorem isPrefixChars_iff :
    ∀ (n h : List Char), isPrefixChars n h = true ↔ ∃ t, h = n ++ t := by
  intro n
  induction n with
  | nil =>
      intro h
      simp [isPrefixChars]
  | cons a as ih =>
      intro h
      cases h with
      | nil =>
          simp [isPrefixChars]
      | cons b bs =>
          rw [isPrefixChars]
          simp only [Bool.and_eq_true, beq_iff_eq, ih bs, List.cons_append,
            List.cons.injEq]
          constructor
          · rintro ⟨hab, t, ht⟩
            exact ⟨t, hab.symm, ht⟩
          · rintro ⟨t, hab, ht⟩
            exact ⟨hab.symm, t, ht⟩

theorem containsChars_iff :
    ∀ (h n : List Char), containsChars n h = true ↔
      ∃ pre post, h = pre ++ n ++ post := by
  intro h
  induction h with
  | nil =>
      intro n
      rw [containsChars, isPrefixChars_iff]
      constructor
      · rintro ⟨t, ht⟩
        exact ⟨[], t, by simpa using ht⟩
      · rintro ⟨pre, post, hp⟩
        have hpre : pre = [] := by
          cases pre with
          | nil => rfl
          | cons x xs => simp at hp
        subst hpre
        exact ⟨post, by simpa using hp⟩
  | cons b bs ih =>
      intro n
      rw [containsChars]
      simp only [Bool.or_eq_true, isPrefixChars_iff, ih]
      constructor
      · rintro (⟨t, ht⟩ | ⟨pre, post, hp⟩)
        · exact ⟨[], t, by simpa using ht⟩
        · exact ⟨b :: pre, post, by simp [hp]⟩
      · rintro ⟨pre, post, hp⟩
        cases pre with
        | nil =>
            left
            exact ⟨post, by simpa using hp⟩
        | cons x xs =>
            right
            simp only [List.cons_append, List.cons.injEq] at hp
            exact ⟨xs, post, hp.2⟩

theorem strContains_iff (needle hay : String) :
    strContains needle hay = true ↔ SubStr needle hay := by
  rw [strContains, SubStr]
  exact containsChars_iff hay.data needle.data

/-! ## Corpus-level flattening -/

/-- `split_documents` is the concatenation, in dictionary order, of
`process_law` over every (category, lawId, law) triple. -/
theorem splitDocuments_eq (lagar : Corpus) :
    splitDocuments lagar =
      lagar.flatMap (fun cat =>
        cat.2.flatMap (fun e => processLaw [cat.1, e.1] e.2)) := by
  rw [splitDocuments]
  refine foldl_emit _ _ (fun a cat => ?_) _ []
  exact foldl_emit _ _ (fun a2 e => rfl) cat.2 a

/-! ## Claim-level support lemmas -/

/-- Path uniqueness for a law whose chapter and section numbers render
distinctly and without `'>'`, and whose sections carry at most one comment. -/
theorem processLaw_paths_nodup (base : List String) (law : Law)
    (hch : law.chapters.Pairwise (fun a b => chapterComp a ≠ chapterComp b))
    (hsec : ∀ ch ∈ law.chapters,
      ch.sections.Pairwise (fun a b => sectionComp a ≠ sectionComp b))
    (hcom : ∀ ch ∈ law.chapters, ∀ s ∈ ch.sections, s.comments.length ≤ 1)
    (hgch : ∀ ch ∈ law.chapters, GtFree (pyStr ch.number))
    (hgs : ∀ ch ∈ law.chapters, ∀ s ∈ ch.sections, GtFree (pyStr s.number)) :
    ((processLaw base law).map Chunk.path).Nodup := by
  rw [paths_eq]
  refine List.Nodup.map_on ?_ (restLists_nodup law hch hsec hcom)
  intro r1 hr1 r2 hr2 heq
  obtain ⟨ch1, hch1, s1, hs1, hm1⟩ := mem_restLists hr1
  obtain ⟨ch2, hch2, s2, hs2, hm2⟩ := mem_restLists hr2
  obtain ⟨hn1, hg1⟩ :=
    mem_sectionRests_gtFree (hgch ch1 hch1) (hgs ch1 hch1 s1 hs1) hm1
  obtain ⟨hn2, hg2⟩ :=
    mem_sectionRests_gtFree (hgch ch2 hch2) (hgs ch2 hch2 s2 hs2) hm2
  exact sjoin_base_inj base hg1 hg2 hn1 hn2 heq

theorem mem_sectionChunks_law_info {li : LawInfo} {cp : List String}
    {ch : Chapter} {s : Section} {c : Chunk}
    (h : c ∈ sectionChunks li cp ch s) : c.law_info = li := by
  rcases mem_sectionChunks h with ⟨sp, h⟩ | ⟨sp, cm, _, h⟩ |
    ⟨sp, i, p, _, h⟩ | ⟨sp, i, j, p, _, pt, _, h⟩ <;> subst h <;> rfl

/-- Every chunk of a law carries the one `law_metadata` snapshot. -/
theorem processLaw_law_info (path : List String) (law : Law) :
    ∀ c ∈ processLaw path law, c.law_info = lawInfoOf law := by
  intro c hc
  obtain ⟨ch, _, s, _, hm⟩ := mem_processLaw hc
  exact mem_sectionChunks_law_info hm

theorem processLaw_contentOk (path : List String) (law : Law) :
    ∀ c ∈ processLaw path law, contentOk law c := by
  intro c hc
  obtain ⟨ch, hch, s, hs, hm⟩ := mem_processLaw hc
  rcases mem_sectionChunks hm with ⟨sp, h⟩ | ⟨sp, cm, hcm, h⟩ |
    ⟨sp, i, p, hp, h⟩ | ⟨sp, i, j, p, hp, pt, hpt, h⟩ <;> subst h
  · exact ⟨ch, hch, s, hs, rfl⟩
  · exact ⟨cm.text, rfl⟩
  · exact ⟨ch, hch, s, hs, p, hp, rfl⟩
  · exact ⟨pt, rfl⟩

/-- Characterisation of the follow decision: host condition plus absence of
every excluded substring from the raw candidate string. -/
theorem followsCode_iff (b : String) (c : Candidate) :
    followsCode b c = true ↔
      ((c.netloc = b ∨ c.netloc = "") ∧
        ∀ d ∈ disallowedSubs, ¬ SubStr d c.raw) := by
  rw [followsCode]
  simp [List.any_eq_true, strContains_iff, not_exists]

/-- C1: counterexample.  The claim asserts that all chunk paths of one law are
pairwise distinct, in particular for multiple comments in one section; but
every comment chunk of a section gets the same path (the section path plus
`"Comment"`, with no index), so a section with two comments yields two chunks
with identical paths. -/
theorem c1_duplicate_paths_counterexample :
    ¬ ((processLaw ["kategori", "lag1"] c1CexLaw).map Chunk.path).Nodup := by
  decide

/-- C1 (amended): within one law's flattened output the chunk paths are
pairwise distinct, provided the rendered chapter numbers are pairwise
distinct, the rendered section numbers within each chapter are pairwise
distinct, every section carries at most one comment, and no rendered chapter
or section number contains the character `'>'` (paragraph and point indices
are 1-indexed enumeration indices and need no condition). -/
theorem c1_paths_unique_amended (base : List String) (law : Law)
    (hch : law.chapters.Pairwise (fun a b => chapterComp a ≠ chapterComp b))
    (hsec : ∀ ch ∈ law.chapters,
      ch.sections.Pairwise (fun a b => sectionComp a ≠ sectionComp b))
    (hcom : ∀ ch ∈ law.chapters, ∀ s ∈ ch.sections, s.comments.length ≤ 1)
    (hgch : ∀ ch ∈ law.chapters, GtFree (pyStr ch.number))
    (hgs : ∀ ch ∈ law.chapters, ∀ s ∈ ch.sections, GtFree (pyStr s.number)) :
    ((processLaw base law).map Chunk.path).Nodup :=
  processLaw_paths_nodup base law hch hsec hcom hgch hgs

/-- Witness for C1 (amended) at a concrete law. -/
theorem c1_paths_unique_amended_witness :
    ((processLaw ["kategori", "lag2"] c1WitLaw).map Chunk.path).Nodup :=
  c1_paths_unique_amended ["kategori", "lag2"] c1WitLaw (by decide) (by decide)
    (by decide) (by decide) (by decide)

theorem sum_map_one_add {α : Type} (l : List α) (f : α → Nat) :
    (l.map (fun x => 1 + f x)).sum = l.length + (l.map f).sum := by
  induction l with
  | nil => rfl
  | cons x xs ih =>
      simp [ih]
      omega

/-- C2: for every law, flattening emits, summed over all sections of all
chapters, `1 + number of comments + number of paragraphs + total points`
chunks; a law with zero chapters flattens to the empty chunk sequence. -/
theorem c2_chunk_count (path : List String) (law : Law) :
    (processLaw path law).length =
      (law.chapters.map (fun ch =>
        (ch.sections.map (fun s =>
          1 + s.comments.length + s.paragraphs.length +
            (s.paragraphs.map (fun p => p.points.length)).sum)).sum)).sum ∧
    (law.chapters = [] → processLaw path law = []) := by
  constructor
  · rw [processLaw_length, chunkCount]
    congr 1
    refine List.map_congr_left ?_
    intro ch _
    congr 1
    refine List.map_congr_left ?_
    intro s _
    rw [sum_map_one_add s.paragraphs (fun p => p.points.length)]
    omega
  · intro h
    rw [processLaw_eq_struct, processLawStruct, h]
    rfl

/-- Witness for C2 at a concrete law and at a zero-chapter law. -/
theorem c2_chunk_count_witness :
    (processLaw ["a", "b"] c2WitLaw).length = 5 ∧
      processLaw ["a", "b"] c2EmptyLaw = [] :=
  ⟨(c2_chunk_count ["a", "b"] c2WitLaw).1.trans (by decide),
   (c2_chunk_count ["a", "b"] c2EmptyLaw).2 rfl⟩

/-- C3: counterexample.  The claim says the exclusion test is applied to the
(resolved) candidate's path; the code applies it to the raw `href` string
before any resolution, so a candidate whose path is clean but whose query
string contains `/api/` is followed per the claim and skipped by the code. -/
theorem c3_raw_href_counterexample :
    followsSpec "lagen.nu" c3Cand = true ∧
      followsCode "lagen.nu" c3Cand = false := by
  decide

/-- C3 (amended): the classifier follows a candidate iff its host equals the
base host or is empty, and none of the excluded substrings occurs anywhere in
the raw candidate string; resolution against the page URL happens only
afterwards, for accepted links. -/
theorem c3_follow_decision_amended (b : String) (c : Candidate) :
    followsCode b c = true ↔
      ((c.netloc = b ∨ c.netloc = "") ∧
        ∀ d ∈ disallowedSubs, ¬ SubStr d c.raw) :=
  followsCode_iff b c

/-- Witness for C3 (amended) at a concrete candidate. -/
theorem c3_follow_decision_amended_witness :
    followsCode "lagen.nu" c3WitCand = true ↔
      ((c3WitCand.netloc = "lagen.nu" ∨ c3WitCand.netloc = "") ∧
        ∀ d ∈ disallowedSubs, ¬ SubStr d c3WitCand.raw) :=
  c3_follow_decision_amended "lagen.nu" c3WitCand

/-- C4: counterexample.  The claim says building or flattening always
completes for every input law value; but `process_law` reads
`chapter['number']` with a plain subscript, so a chapter dictionary without a
`"number"` key raises a `KeyError` (modelled as `none`). -/
theorem c4_shape_exception_counterexample :
    flattenRawLaw ["kategori", "lag"] c4CexRaw = none := by decide

/-- C4 (amended): the builder never raises and degrades every missing
selector to `None`/empty; the flattener completes for every law value in
which each chapter and section carries its `"number"` key and each stored
`case_law`/`citations` list is non-empty (the shape the builder always
produces) — a chapter or section without `"number"`, or a stored empty count
list, raises instead. -/
theorem c4_failopen_amended :
    (∀ (path : List String) (law : RawLaw), BuilderShaped law →
        (flattenRawLaw path law).isSome = true) ∧
    (∀ name : String,
        buildLaw name
            { h1 := none, h1small := none, department := none,
              issuedDate := none, lastAmended := none, chapters := [] } =
          { id := name, title := none, short_title := none,
            metadata := { department := none, issued_date := none,
                          last_amended := { sfs := none } },
            chapters := [] }) :=
  ⟨fun path law h => flattenRawLaw_isSome path law h, fun _ => rfl⟩

/-- Witness for C4 (amended) at a concrete builder-shaped raw law and page. -/
theorem c4_failopen_amended_witness :
    (flattenRawLaw ["a", "b"] c4WitRaw).isSome = true ∧
      buildLaw "x"
          { h1 := none, h1small := none, department := none,
            issuedDate := none, lastAmended := none, chapters := [] } =
        { id := "x", title := none, short_title := none,
          metadata := { department := none, issued_date := none,
                        last_amended := { sfs := none } },
          chapters := [] } :=
  ⟨c4_failopen_amended.1 ["a", "b"] c4WitRaw (by decide),
   c4_failopen_amended.2 "x"⟩

theorem insertLaw_some {corpus : Corpus} {cat lid : String} {law : Law}
    {corpus' : Corpus} (h : insertLaw corpus cat lid law = some corpus') :
    ∃ laws, dictGet corpus cat = some laws ∧
      corpus' = dictSet corpus cat (dictSet laws lid law) := by
  rw [insertLaw] at h
  cases hg : dictGet corpus cat with
  | none => rw [hg] at h; simp at h
  | some laws =>
      rw [hg] at h
      simp only [Option.some.injEq] at h
      exact ⟨laws, rfl, h.symm⟩

theorem insertLaw_lookup_self {corpus : Corpus} {cat lid : String} {law : Law}
    {corpus' : Corpus} (h : insertLaw corpus cat lid law = some corpus') :
    lookupLaw corpus' cat lid = some law := by
  obtain ⟨laws, hg, hc⟩ := insertLaw_some h
  subst hc
  simp [lookupLaw, dictGet_dictSet_self]

theorem insertLaw_lookup_frame {corpus : Corpus} {cat lid : String}
    {law : Law} {corpus' : Corpus}
    (h : insertLaw corpus cat lid law = some corpus') {cat' lid' : String}
    (hne : (cat', lid') ≠ (cat, lid)) :
    lookupLaw corpus' cat' lid' = lookupLaw corpus cat' lid' := by
  obtain ⟨laws, hg, hc⟩ := insertLaw_some h
  subst hc
  by_cases hcat : cat' = cat
  · subst hcat
    have hlid : lid ≠ lid' := by
      intro e
      exact hne (by rw [e])
    rw [lookupLaw, lookupLaw, dictGet_dictSet_self, hg]
    simp [dictGet_dictSet_ne _ _ _ _ hlid]
  · rw [lookupLaw, lookupLaw,
      dictGet_dictSet_ne _ _ _ _ (fun e => hcat e.symm)]

theorem initCategory_lookup_other (corpus : Corpus) (cat cat' lid' : String)
    (hne : cat' ≠ cat) :
    lookupLaw (initCategory corpus cat) cat' lid' =
      lookupLaw corpus cat' lid' := by
  rw [lookupLaw, lookupLaw, initCategory,
    dictGet_dictSet_ne _ _ _ _ (fun e => hne e.symm)]

theorem initCategory_lookup_self (corpus : Corpus) (cat lid' : String) :
    lookupLaw (initCategory corpus cat) cat lid' = none := by
  rw [lookupLaw, initCategory, dictGet_dictSet_self]
  rfl

theorem insertLaw_isSome (corpus : Corpus) (cat lid : String) (law : Law)
    (h : (dictGet corpus cat).isSome = true) :
    (insertLaw corpus cat lid law).isSome = true := by
  obtain ⟨laws, hg⟩ := Option.isSome_iff_exists.1 h
  rw [insertLaw, hg]
  rfl

/-- C5: counterexample.  The claim says the corpus is mutated only by
(category, law-id) → Law insertion and that no pipeline operation removes
previously inserted laws; but `parse_category` assigns an empty dictionary to
the whole category, so re-parsing a category page clears every law already
stored under it. -/
theorem c5_reinit_clears_counterexample :
    (insertLaw (initCategory [] "kategori") "kategori" "lag" c5Law).map
        (fun s => lookupLaw s "kategori" "lag") = some (some c5Law) ∧
      (insertLaw (initCategory [] "kategori") "kategori" "lag" c5Law).map
        (fun s => lookupLaw (initCategory s "kategori") "kategori" "lag") =
        some none := by
  decide

/-- C5 (amended): the corpus is mutated by exactly two operations: law
insertion, which sets one (category, law-id) key and leaves every other key
unchanged, and category initialisation, which maps a category to an empty law
map — erasing that category's previously inserted laws while leaving all
other categories unchanged. -/
theorem c5_corpus_mutation_amended :
    (∀ (corpus : Corpus) (cat lid : String) (law : Law) (corpus' : Corpus),
        insertLaw corpus cat lid law = some corpus' →
          lookupLaw corpus' cat lid = some law ∧
            ∀ cat' lid' : String, (cat', lid') ≠ (cat, lid) →
              lookupLaw corpus' cat' lid' = lookupLaw corpus cat' lid') ∧
    (∀ (corpus : Corpus) (cat cat' lid' : String), cat' ≠ cat →
        lookupLaw (initCategory corpus cat) cat' lid' =
          lookupLaw corpus cat' lid') ∧
    (∀ (corpus : Corpus) (cat lid' : String),
        lookupLaw (initCategory corpus cat) cat lid' = none) :=
  ⟨fun _ _ _ _ _ h =>
      ⟨insertLaw_lookup_self h, fun _ _ hne => insertLaw_lookup_frame h hne⟩,
   fun corpus cat cat' lid' hne =>
      initCategory_lookup_other corpus cat cat' lid' hne,
   fun corpus cat lid' => initCategory_lookup_self corpus cat lid'⟩

/-- Witness for C5 (amended) at concrete corpora. -/
theorem c5_corpus_mutation_amended_witness :
    lookupLaw c5WitCorpus' "a" "x" = some c5Law ∧
      lookupLaw (initCategory c5WitCorpus' "b") "a" "x" =
        lookupLaw c5WitCorpus' "a" "x" ∧
      lookupLaw (initCategory c5WitCorpus' "a") "a" "x" = none :=
  ⟨(c5_corpus_mutation_amended.1 [("a", [])] "a" "x" c5Law c5WitCorpus'
      (by decide)).1,
   c5_corpus_mutation_amended.2.1 c5WitCorpus' "b" "a" "x" (by decide),
   c5_corpus_mutation_amended.2.2 c5WitCorpus' "a" "x"⟩

/-- C6: counterexample.  The claim describes inserting A then B into an empty
corpus; but `parse_law` writes through `data["lagar"][category][law_name]`,
which raises a `KeyError` when the category entry does not exist, so inserting
into the empty corpus produces no corpus at all. -/
theorem c6_empty_insert_counterexample :
    ((insertLaw ([] : Corpus) "kategori" "lag" c6LawA).bind
        (fun s => insertLaw s "kategori" "lag" c6LawB)) = none := by
  decide

/-- C6 (amended): once the candidate categories are initialised (as
`parse_category` always does before `parse_law` runs), insertion is
last-write-wins — inserting A then B under one key yields a corpus whose
lookup at that key is B — insertion into a present category always succeeds,
and insertions under two distinct keys are independent: each key's lookup
returns its own law. -/
theorem c6_last_write_wins_amended :
    (∀ (cat lid : String) (A B : Law) (s1 s2 : Corpus),
        insertLaw (initCategory [] cat) cat lid A = some s1 →
          insertLaw s1 cat lid B = some s2 →
            lookupLaw s2 cat lid = some B) ∧
    (∀ (corpus : Corpus) (cat lid : String) (law : Law),
        (dictGet corpus cat).isSome = true →
          (insertLaw corpus cat lid law).isSome = true) ∧
    (∀ (cat1 lid1 cat2 lid2 : String) (A B : Law) (s1 s2 : Corpus),
        (cat1, lid1) ≠ (cat2, lid2) →
          insertLaw (initCategory (initCategory [] cat1) cat2) cat1 lid1 A =
              some s1 →
            insertLaw s1 cat2 lid2 B = some s2 →
              lookupLaw s2 cat1 lid1 = some A ∧
                lookupLaw s2 cat2 lid2 = some B) := by
  refine ⟨?_, ?_, ?_⟩
  · intro cat lid A B s1 s2 h1 h2
    exact insertLaw_lookup_self h2
  · intro corpus cat lid law h
    exact insertLaw_isSome corpus cat lid law h
  · intro cat1 lid1 cat2 lid2 A B s1 s2 hne h1 h2
    constructor
    · rw [insertLaw_lookup_frame h2 hne]
      exact insertLaw_lookup_self h1
    · exact insertLaw_lookup_self h2

/-- Witness for C6 (amended) at concrete keys, laws and corpora. -/
theorem c6_last_write_wins_amended_witness :
    lookupLaw [("a", [("x", c6LawB)])] "a" "x" = some c6LawB ∧
      (insertLaw [("a", [])] "a" "x" c6LawA).isSome = true ∧
      (lookupLaw c6WitS2 "a" "x" = some c6LawA ∧
        lookupLaw c6WitS2 "b" "y" = some c6LawB) :=
  ⟨c6_last_write_wins_amended.1 "a" "x" c6LawA c6LawB [("a", [("x", c6LawA)])]
      [("a", [("x", c6LawB)])] (by decide) (by decide),
   c6_last_write_wins_amended.2.1 [("a", [])] "a" "x" c6LawA (by decide),
   c6_last_write_wins_amended.2.2 "a" "x" "b" "y" c6LawA c6LawB c6WitS1
      c6WitS2 (by decide) (by decide) (by decide)⟩

/-- C7: counterexample.  The claim says every chunk's content is a string even
when text fields are absent; but the builder always stores the `"text"` key
(possibly as `null`), so `section.get("text", "")` returns `None` — not the
default `""` — and the section chunk's content is `None`. -/
theorem c7_null_content_counterexample :
    (processLaw ["kategori", "lag"] c7CexLaw).map Chunk.content = [none] := by
  decide

/-- C7 (amended): comment and point chunks always carry string content;
section and paragraph chunks carry the corresponding section's/paragraph's
text value, which is a string when that text is present and `None` when the
builder stored `null` (the `.get` default `""` applies only to a `"text"` key
that is absent altogether, which the builder never produces). -/
theorem c7_content_amended (path : List String) (law : Law) :
    ∀ c ∈ processLaw path law, contentOk law c :=
  processLaw_contentOk path law

/-- Witness for C7 (amended) at the concrete section chunk of `c7WitLaw`. -/
theorem c7_content_amended_witness :
    contentOk c7WitLaw
      { content := some "SektionstextW",
        path := "a > b > Chapter 1 > Section 2",
        law_info := lawInfoOf c7WitLaw,
        meta := .sectionMeta none (some "2") [] 0 0 } :=
  c7_content_amended ["a", "b"] c7WitLaw _ (by decide)

/-- C8: the flattener traverses in document order and emits, per section, the
section chunk, then one chunk per comment in comment order, then per
paragraph (1-indexed) the paragraph chunk followed by one chunk per point
(1-indexed) — the structural flatMap form `processLawStruct`, whose
definition exhibits exactly this order via `List.enumFrom 1`. -/
theorem c8_emission_order (path : List String) (law : Law) :
    processLaw path law = processLawStruct path law :=
  processLaw_eq_struct path law

/-- C9: flattening an entire corpus is the concatenation, in dictionary
order, of flattening every (category, lawId, law) triple it contains. -/
theorem c9_corpus_concat (lagar : Corpus) :
    splitDocuments lagar =
      lagar.flatMap (fun cat =>
        cat.2.flatMap (fun e => processLaw [cat.1, e.1] e.2)) :=
  splitDocuments_eq lagar

/-- C10: every chunk emitted for a law carries the identical `law_info`
snapshot, the `law_metadata` record computed once from the law. -/
theorem c10_law_info_uniform (path : List String) (law : Law) :
    ∀ c ∈ processLaw path law, c.law_info = lawInfoOf law :=
  processLaw_law_info path law

/-- Witness for C10 at the concrete section chunk of `c10WitLaw`. -/
theorem c10_law_info_uniform_witness :
    ({ content := some "Text",
       path := "a > b > Chapter 3 > Section 4",
       law_info := lawInfoOf c10WitLaw,
       meta := .sectionMeta none (some "4") [] 0 0 } : Chunk).law_info =
      lawInfoOf c10WitLaw :=
  c10_law_info_uniform ["a", "b"] c10WitLaw _ (by decide)

end LagenNu
